import Mathlib

/-!
Verification of the twooms terminal task manager (Go) against its
natural-language specification.

The repository is shallowly embedded: pure Go functions become Lean
functions, stateful code becomes explicit state passing over `StoreData`
(the single JSON document) and over explicit loop states, and fallible
operations return `Except`.  Go strings are Lean `String`s;
`strings.HasPrefix` is modelled over the character data of the string.

The entity-store implementation file (`storage/json.go`) is not part of
the sources available here — only its declarations (`storage/types.go`),
its tests (`storage/json_test.go`) and its callers are.  The store
operations below are therefore modelled from the specification (section
4.1 of spec.md) and are marked `Modelled from the spec:` in their doc
comments.  Everything else is translated from the Go sources, using the
newest revision wherever a file contains several concatenated revisions.
-/

namespace Twooms

/-- Go `strings.HasPrefix s pre`, modelled over the character data of the
two strings. -/
def goHasPrefix (s pre : String) : Bool :=
  pre.data.isPrefixOf s.data

/-- Go `strings.ToLower`, modelled over the character data; the strings
it is applied to (command names) are ASCII. -/
def goToLower (s : String) : String := String.mk (s.data.map Char.toLower)

/-- Go `strings.TrimSpace`, modelled over the character data: drop
whitespace from both ends. -/
def goTrimSpace (s : String) : String :=
  String.mk (((s.data.dropWhile Char.isWhitespace).reverse.dropWhile Char.isWhitespace).reverse)

/-- Calendar date, the result of `dateOnly` in `commands/schedule.go`:
year, month and day in the local timezone, time-of-day zeroed. -/
structure Date where
  year : Int
  month : Int
  day : Int
deriving DecidableEq, Repr

/-- Chronological strict order on `Date` values; `time.Time.Before` on two
`dateOnly` outputs (same timezone, zero clock) is exactly this
lexicographic comparison of (year, month, day). -/
def Date.before (a b : Date) : Bool :=
  a.year < b.year ||
    (a.year == b.year && (a.month < b.month ||
      (a.month == b.month && a.day < b.day)))

/-- Go `time.Time`, restricted to what the repository observes: the
calendar date plus a time-of-day remainder that the date queries ignore. -/
structure Timestamp where
  date : Date
  hour : Int := 0
  minute : Int := 0
deriving DecidableEq, Repr

/-- The `dateOnly` helper of `commands/schedule.go`: reduce a timestamp to
its calendar date, dropping time-of-day. -/
def dateOnly (t : Timestamp) : Date := t.date

/-- Project entity (`storage/types.go`, plus the `Shortcut` field used by
`storage/json_test.go` and every caller). `created_at` is modelled as an
integer timestamp. -/
structure Project where
  id : String
  name : String
  shortcut : String
  createdAt : Int := 0
deriving DecidableEq, Repr

/-- Task entity (`storage/types.go`). `Duration` is a string enum whose
empty value means "unestimated", exactly as in the Go type. -/
structure Task where
  id : String
  projectID : String
  name : String
  done : Bool
  createdAt : Int := 0
  dueDate : Option Timestamp := none
  duration : String := ""
deriving DecidableEq, Repr

/-- The single persisted JSON document (`jsonData` in the storage
package): full project list, full task list and the migration flag. -/
structure StoreData where
  projects : List Project
  tasks : List Task
  migrated : Bool := true
deriving DecidableEq, Repr

/-- Error taxonomy of the entity store (spec.md section 7), with the
user-visible message text checked by `storage/json_test.go`. -/
inductive StoreErr
  | notFound (msg : String)
  | ambiguous (msg : String)
  | invalidFormat (msg : String)
  | conflict (msg : String)
deriving DecidableEq, Repr

def msgProjectNotFound : String := "project not found"

def msgProjectAmbiguous : String := "ambiguous project id"

def msgTaskNotFound : String := "task not found"

def msgTaskAmbiguous : String := "ambiguous task id"

def msgShortcutInvalid : String :=
  "invalid shortcut: must be 1-20 characters of letters, digits, or hyphens"

def msgShortcutTaken : String := "shortcut already in use"

/-- Modelled from the spec: `ResolveProjectID(token)` of the missing
`storage/json.go`.  Three-tier resolution, first match wins: (1) exact id
equality; (2) exact shortcut equality; (3) only when the token has at
least 6 characters, unique prefix-of-id match, where zero matches is
NotFound, one match resolves, and two or more is Ambiguous. -/
def ResolveProjectID (s : StoreData) (token : String) : Except StoreErr String :=
  match s.projects.find? (fun p => p.id == token) with
  | some p => Except.ok p.id
  | none =>
    match s.projects.find? (fun p => p.shortcut == token) with
    | some p => Except.ok p.id
    | none =>
      if 6 ≤ token.length then
        match s.projects.filter (fun p => goHasPrefix p.id token) with
        | [] => Except.error (StoreErr.notFound msgProjectNotFound)
        | [p] => Except.ok p.id
        | _ => Except.error (StoreErr.ambiguous msgProjectAmbiguous)
      else
        Except.error (StoreErr.notFound msgProjectNotFound)

/-- Modelled from the spec: `ResolveTaskID(token)` — the same algorithm as
`ResolveProjectID` minus the shortcut tier, since tasks have no
shortcut. -/
def ResolveTaskID (s : StoreData) (token : String) : Except StoreErr String :=
  match s.tasks.find? (fun t => t.id == token) with
  | some t => Except.ok t.id
  | none =>
    if 6 ≤ token.length then
      match s.tasks.filter (fun t => goHasPrefix t.id token) with
      | [] => Except.error (StoreErr.notFound msgTaskNotFound)
      | [t] => Except.ok t.id
      | _ => Except.error (StoreErr.ambiguous msgTaskAmbiguous)
    else
      Except.error (StoreErr.notFound msgTaskNotFound)

/-- Modelled from the spec: `GetProject(id)`. -/
def GetProject (s : StoreData) (id : String) : Except StoreErr Project :=
  match s.projects.find? (fun p => p.id == id) with
  | some p => Except.ok p
  | none => Except.error (StoreErr.notFound msgProjectNotFound)

/-- Modelled from the spec: `GetTask(id)`. -/
def GetTask (s : StoreData) (id : String) : Except StoreErr Task :=
  match s.tasks.find? (fun t => t.id == id) with
  | some t => Except.ok t
  | none => Except.error (StoreErr.notFound msgTaskNotFound)

/-- Modelled from the spec: `ListProjects()` (defensive copy, insertion
order). -/
def ListProjects (s : StoreData) : List Project := s.projects

/-- Modelled from the spec: `ListTasks(projectID)` — the tasks whose
`project_id` equals the argument, in insertion order. -/
def ListTasks (s : StoreData) (projectID : String) : List Task :=
  s.tasks.filter (fun t => t.projectID == projectID)

/-- Modelled from the spec: `ListAllTasks()`. -/
def ListAllTasks (s : StoreData) : List Task := s.tasks

/-- Modelled from the spec: `CreateProject(name)`; the freshly generated
unique id and the clock reading are explicit arguments, since id
generation draws on the ambient randomness source.  The default shortcut
is the first 8 characters of the new id. -/
def CreateProject (s : StoreData) (newId name : String) (now : Int) :
    StoreData × Project :=
  let p : Project := { id := newId, name := name, shortcut := newId.take 8, createdAt := now }
  ({ s with projects := s.projects ++ [p] }, p)

/-- Modelled from the spec: `DeleteProject(id)` — removes the project and,
in the same durable write (a single new document value), every task whose
`project_id` equals it; NotFound when no project has the id. -/
def DeleteProject (s : StoreData) (id : String) : Except StoreErr StoreData :=
  if s.projects.any (fun p => p.id == id) then
    Except.ok { s with
      projects := s.projects.filter (fun p => !(p.id == id)),
      tasks := s.tasks.filter (fun t => !(t.projectID == id)) }
  else
    Except.error (StoreErr.notFound msgProjectNotFound)

/-- Shortcut format check of the spec: the token must match
`[A-Za-z0-9-]` repeated 1 to 20 times. -/
def validShortcut (sc : String) : Bool :=
  1 ≤ sc.length && sc.length ≤ 20 &&
    sc.data.all (fun c => c.isAlpha || c.isDigit || c == '-')

/-- Modelled from the spec: `SetProjectShortcut(id, newShortcut)` with
validation order format, then conflict, then existence. -/
def SetProjectShortcut (s : StoreData) (id sc : String) : Except StoreErr StoreData :=
  if !validShortcut sc then
    Except.error (StoreErr.invalidFormat msgShortcutInvalid)
  else if s.projects.any (fun p => p.shortcut == sc && !(p.id == id)) then
    Except.error (StoreErr.conflict msgShortcutTaken)
  else if s.projects.any (fun p => p.id == id) then
    Except.ok { s with
      projects := s.projects.map (fun p => if p.id == id then { p with shortcut := sc } else p) }
  else
    Except.error (StoreErr.notFound msgProjectNotFound)

/-- Modelled from the spec: `CreateTask(projectID, name)` — fails when the
project reference does not currently resolve; the new task is attached to
the resolved project id. -/
def CreateTask (s : StoreData) (newId projectRef name : String) (now : Int) :
    Except StoreErr (StoreData × Task) :=
  match ResolveProjectID s projectRef with
  | Except.error _ => Except.error (StoreErr.notFound msgProjectNotFound)
  | Except.ok pid =>
    let t : Task := { id := newId, projectID := pid, name := name, done := false, createdAt := now }
    Except.ok ({ s with tasks := s.tasks ++ [t] }, t)

/-- Modelled from the spec: `UpdateTask(id, done)`. -/
def UpdateTask (s : StoreData) (id : String) (done : Bool) : Except StoreErr StoreData :=
  if s.tasks.any (fun t => t.id == id) then
    Except.ok { s with
      tasks := s.tasks.map (fun t => if t.id == id then { t with done := done } else t) }
  else
    Except.error (StoreErr.notFound msgTaskNotFound)

/-- Modelled from the spec: `SetTaskDueDate(id, date|None)`. -/
def SetTaskDueDate (s : StoreData) (id : String) (d : Option Timestamp) :
    Except StoreErr StoreData :=
  if s.tasks.any (fun t => t.id == id) then
    Except.ok { s with
      tasks := s.tasks.map (fun t => if t.id == id then { t with dueDate := d } else t) }
  else
    Except.error (StoreErr.notFound msgTaskNotFound)

/-- Modelled from the spec: `SetTaskDuration(id, durationEnum)`; the store
does not re-validate the enum. -/
def SetTaskDuration (s : StoreData) (id dur : String) : Except StoreErr StoreData :=
  if s.tasks.any (fun t => t.id == id) then
    Except.ok { s with
      tasks := s.tasks.map (fun t => if t.id == id then { t with duration := dur } else t) }
  else
    Except.error (StoreErr.notFound msgTaskNotFound)

/-- Modelled from the spec: `DeleteTask(id)`. -/
def DeleteTask (s : StoreData) (id : String) : Except StoreErr StoreData :=
  if s.tasks.any (fun t => t.id == id) then
    Except.ok { s with tasks := s.tasks.filter (fun t => !(t.id == id)) }
  else
    Except.error (StoreErr.notFound msgTaskNotFound)

/-- Demonstration store used to instantiate the resolution theorems: two
projects whose ids share no 6-character prefix, each with a shortcut. -/
def demoStoreC1 : StoreData :=
  { projects :=
      [ { id := "aaaaaa11-0000-4000-8000-000000000001", name := "Work", shortcut := "aaaaaa11" },
        { id := "bbbbbb22-0000-4000-8000-000000000002", name := "Home", shortcut := "home" } ],
    tasks := [], migrated := true }

/-- Spec-side reading of the shortcut format regex: a string of 1 to 20
characters, each an upper-case ASCII letter, lower-case ASCII letter,
ASCII digit, or hyphen. -/
def ShortcutPattern (sc : String) : Prop :=
  1 ≤ sc.length ∧ sc.length ≤ 20 ∧
    ∀ c ∈ sc.data, (65 ≤ c.toNat ∧ c.toNat ≤ 90) ∨ (97 ≤ c.toNat ∧ c.toNat ≤ 122) ∨
      (48 ≤ c.toNat ∧ c.toNat ≤ 57) ∨ c = '-'

instance (sc : String) : Decidable (ShortcutPattern sc) := by
  unfold ShortcutPattern; infer_instance

/-- Referential-integrity invariant of the data model: every task's
`project_id` refers to a project that is still present. -/
def NoOrphans (s : StoreData) : Prop :=
  ∀ t ∈ s.tasks, ∃ p ∈ s.projects, p.id = t.projectID

/-- The mutating operations of the entity store, as one step alphabet so
invariant preservation can be stated over every operation at once. -/
inductive StoreOp
  | createProject (newId name : String) (now : Int)
  | setShortcut (id sc : String)
  | delProject (id : String)
  | createTask (newId projectRef name : String) (now : Int)
  | updateTask (id : String) (done : Bool)
  | setDueDate (id : String) (d : Option Timestamp)
  | setDuration (id dur : String)
  | delTask (id : String)

/-- Applies one mutating store operation to the document. -/
def applyOp (s : StoreData) : StoreOp → Except StoreErr StoreData
  | .createProject newId name now => Except.ok (CreateProject s newId name now).1
  | .setShortcut id sc => SetProjectShortcut s id sc
  | .delProject id => DeleteProject s id
  | .createTask newId ref name now => (CreateTask s newId ref name now).map (fun r => r.1)
  | .updateTask id done => UpdateTask s id done
  | .setDueDate id d => SetTaskDueDate s id d
  | .setDuration id dur => SetTaskDuration s id dur
  | .delTask id => DeleteTask s id

/-- Demonstration stores for the delete-cascade witness: two projects and
one task under each; deleting the first project leaves exactly the
second project and its task. -/
def demoStoreC2 : StoreData :=
  { projects :=
      [ { id := "cccccc33-0000-4000-8000-000000000003", name := "Doomed", shortcut := "cccccc33" },
        { id := "dddddd44-0000-4000-8000-000000000004", name := "Kept", shortcut := "dddddd44" } ],
    tasks :=
      [ { id := "ttttt111-0000-4000-8000-000000000011", projectID := "cccccc33-0000-4000-8000-000000000003", name := "T1", done := false },
        { id := "ttttt222-0000-4000-8000-000000000012", projectID := "dddddd44-0000-4000-8000-000000000004", name := "T2", done := false } ],
    migrated := true }

def demoStoreC2After : StoreData :=
  { projects :=
      [ { id := "dddddd44-0000-4000-8000-000000000004", name := "Kept", shortcut := "dddddd44" } ],
    tasks :=
      [ { id := "ttttt222-0000-4000-8000-000000000012", projectID := "dddddd44-0000-4000-8000-000000000004", name := "T2", done := false } ],
    migrated := true }

/-- Selection loop body of `listTasksInRange` (`commands/schedule.go`):
one pass over the tasks, appending to the in-range bucket (`filtered` in
the source, first component) or to the overdue bucket (`overdueTasks`,
second component) in encounter order. -/
def rangeStep (start endd : Date) (includeOverdue : Bool)
    (acc : List Task × List Task) (t : Task) : List Task × List Task :=
  if t.done then acc
  else
    match t.dueDate with
    | none => acc
    | some dd =>
      let due := dateOnly dd
      if !(due.before start) && due.before endd then (acc.1 ++ [t], acc.2)
      else if includeOverdue && due.before start then (acc.1, acc.2 ++ [t])
      else acc

/-- The task-selection and ordering logic of `listTasksInRange`
(`commands/schedule.go`): filter on the done flag, presence of a due
date and the `[start, end)` calendar range, then list the overdue bucket
before the in-range bucket (`append(overdueTasks, filtered...)`).
Printing and the total-duration footer are omitted. -/
def listTasksInRange (tasks : List Task) (start endd : Date) (includeOverdue : Bool) :
    List Task :=
  let r := tasks.foldl (rangeStep start endd includeOverdue) ([], [])
  r.2 ++ r.1

/-- Spec-side selector, following the claim's words: a task is in range
when it is not done, has a due date, and that date reduced to a calendar
date `d` satisfies `start ≤ d < end`. -/
def specInRange (start endd : Date) (t : Task) : Bool :=
  !t.done &&
    match t.dueDate with
    | some d => !(dateOnly d).before start && (dateOnly d).before endd
    | none => false

/-- Spec-side selector, following the claim's words: with overdue
inclusion enabled, a task is overdue when it is not done, has a due date,
and that date is strictly before `start`. -/
def specOverdue (start : Date) (includeOverdue : Bool) (t : Task) : Bool :=
  includeOverdue && !t.done &&
    match t.dueDate with
    | some d => (dateOnly d).before start
    | none => false

/-- Tool invocation emitted by the model (`llm.ToolCall`): call id,
function name and structured arguments; argument values are modelled as
strings, which is how the executor renders every value anyway. -/
structure ToolCallR where
  id : String
  name : String
  args : List (String × String) := []
deriving DecidableEq, Repr

/-- Conversation message (`llm.Message`): role tag, text content, the
tool calls of an assistant message, and the id of the tool call a
tool-role message answers. -/
structure Message where
  role : String
  content : String
  toolCalls : List ToolCallR := []
  toolCallID : String := ""
deriving DecidableEq, Repr

def maxCommandContextEntries : Nat := 10

def commandContextTag : String := "[Command executed]"

/-- A message is an injected command-context entry when its content
starts with the command-context marker (`strings.HasPrefix` in
`trimCommandContext`). -/
def isContext (m : Message) : Bool := goHasPrefix m.content commandContextTag

/-- The system prompt of `commands/chat.go` (`getSystemPrompt`), with the
current date and weekday substituted in. -/
def getSystemPrompt (today weekday : String) : String :=
  "You are a helpful task management assistant for Twooms, a terminal-based task manager.\n\nTODAY\x27S DATE: " ++ today ++ " (" ++ weekday ++
  ")\n\nIMPORTANT RULES:\n1. When a user refers to a project by NAME (not ID), FIRST call \"projects\" to find the ID, then use that ID.\n2. When a user refers to a task by NAME, FIRST call the listing tool to find the task\x27s ID.\n3. NEVER ask the user for an ID. Always look it up using available tools.\n4. When users refer to \"that task\" or \"the project I just created\", use context from [Command executed] messages.\n5. When setting due dates: \"today\" = " ++ today ++
  ", \"tomorrow\" = the next day, etc.\n6. Tool outputs are ALREADY shown to the user. After using tools, just say \"Done.\" or give a one-sentence summary. Do NOT repeat or list the tool output.\n7. Be concise since this is a terminal application."

def systemMessage (today weekday : String) : Message :=
  { role := "system", content := getSystemPrompt today weekday }

/-- `ensureSystemPrompt` of `commands/chat.go`: seed an empty history
with the system prompt. -/
def ensureSystemPrompt (today weekday : String) (h : List Message) : List Message :=
  if h.isEmpty then [systemMessage today weekday] else h

/-- The injected context entry built by `AddCommandContext`. -/
def contextMessage (command output : String) : Message :=
  { role := "user",
    content := commandContextTag ++ (" " ++ command ++ "\nResult: " ++ output) }

/-- The paired acknowledgment appended right after each context entry. -/
def ackMessage : Message := { role := "assistant", content := "Noted." }

/-- Number of injected command-context entries in a history. -/
def contextCount (h : List Message) : Nat := (h.filter isContext).length

/-- The removal loop of `trimCommandContext`: `toRemove` entries still to
drop, a `skipNext` flag that also drops the message following a dropped
context entry, and the remaining input.  The `toRemove > 0` test of the
source becomes the pattern match on the counter. -/
def trimLoop : Nat → Bool → List Message → List Message
  | _, _, [] => []
  | toRemove, true, _ :: rest => trimLoop toRemove false rest
  | 0, false, m :: rest => m :: trimLoop 0 false rest
  | toRemove+1, false, m :: rest =>
    if isContext m then trimLoop toRemove true rest
    else m :: trimLoop (toRemove+1) false rest

/-- `trimCommandContext` of `commands/chat.go`: when more than
`maxCommandContextEntries` context entries are present, remove the excess
starting from the oldest, skipping the paired acknowledgment along with
each removed entry. -/
def trimCommandContext (h : List Message) : List Message :=
  if maxCommandContextEntries < contextCount h then
    trimLoop (contextCount h - maxCommandContextEntries) false h
  else h

/-- `AddCommandContext` of `commands/chat.go`: seed the system prompt if
needed, append the context entry and its acknowledgment, then trim. -/
def AddCommandContext (today weekday : String) (h : List Message)
    (command output : String) : List Message :=
  trimCommandContext
    (ensureSystemPrompt today weekday h ++ [contextMessage command output, ackMessage])

/-- Spec-side description of the trim: drop the first `n` context
entries, each together with the message immediately following it. -/
def removeOldest : Nat → List Message → List Message
  | 0, h => h
  | _+1, [] => []
  | n+1, m :: rest =>
    if isContext m then removeOldest n rest.tail
    else m :: removeOldest (n+1) rest

/-- Histories of the shape the chat engine builds: every injected
command-context entry is immediately followed by its acknowledgment,
which is not itself a context entry, and stray messages are not context
entries. -/
inductive WFHistory : List Message → Prop
  | nil : WFHistory []
  | ctx (c a : Message) (rest : List Message) (hc : isContext c = true)
      (ha : isContext a = false) (hr : WFHistory rest) : WFHistory (c :: a :: rest)
  | other (m : Message) (rest : List Message) (hm : isContext m = false)
      (hr : WFHistory rest) : WFHistory (m :: rest)

/-- Registered command metadata: name as registered, hidden and
destructive flags, and declared parameter names in order
(`commands.Command` minus the handler). -/
structure CmdMeta where
  name : String
  hidden : Bool := false
  destructive : Bool := false
  params : List String := []
deriving DecidableEq, Repr

/-- The command registry as populated by the `Register` calls across the
commands package (newest revision of each file).  Only `/delproject`
carries the destructive flag in the source. -/
def registeredCommands : List CmdMeta := [
  { name := "/clearchat", hidden := true },
  { name := "/usage", hidden := true },
  { name := "/chat", hidden := true, params := ["message"] },
  { name := "/project", params := ["name"] },
  { name := "/projects" },
  { name := "/delproject", destructive := true, params := ["project_id"] },
  { name := "/shortcut", params := ["project_id", "new_shortcut"] },
  { name := "/task", params := ["project_id", "task_name"] },
  { name := "/tasks", params := ["project_id"] },
  { name := "/done", params := ["task_id"] },
  { name := "/undone", params := ["task_id"] },
  { name := "/deltask", params := ["task_id"] },
  { name := "/due", params := ["task_id", "date"] },
  { name := "/duration", params := ["task_id", "duration"] },
  { name := "/today", params := ["project_id"] },
  { name := "/tomorrow", params := ["project_id"] },
  { name := "/week", params := ["project_id"] },
  { name := "/help", hidden := true },
  { name := "/quit", hidden := true },
  { name := "/exit", hidden := true },
  { name := "/debug", hidden := true },
  { name := "/echo", hidden := true } ]

/-- `GetByName` of `commands/commands.go`: prepend the leading slash when
missing and look the lowercased name up in the registry. -/
def GetByName (name : String) : Option CmdMeta :=
  let n := if goHasPrefix name "/" then name else "/" ++ name
  registeredCommands.find? (fun c => c.name == goToLower n)

/-- The positional argument-ordering table of `convertArgsToSlice`
(`commands/chat.go`), keyed by tool name. -/
def argOrder : List (String × List String) := [
  ("project", ["name"]),
  ("projects", []),
  ("delproject", ["project_id"]),
  ("task", ["project_id", "task_name"]),
  ("tasks", ["project_id"]),
  ("done", ["task_id"]),
  ("undone", ["task_id"]),
  ("deltask", ["task_id"]),
  ("due", ["task_id", "date"]),
  ("duration", ["task_id", "duration"]) ]

/-- Lookup of one key in the tool call's argument map. -/
def lookupArg (args : List (String × String)) (key : String) : Option String :=
  (args.find? (fun kv => kv.1 == key)).map (fun kv => kv.2)

/-- `convertArgsToSlice` of `commands/chat.go`: emit the call's argument
values in the table's declared order, skipping absent keys; a name
absent from the table yields the empty slice. -/
def convertArgsToSlice (cmdName : String) (args : List (String × String)) : List String :=
  match argOrder.lookup cmdName with
  | none => []
  | some order => order.filterMap (lookupArg args)

/-- Command-string construction of the `/chat` tool executor:
`"/" + name`, plus the space-joined positional arguments when there are
any. -/
def buildCmdStr (name : String) (cmdArgs : List String) : String :=
  if cmdArgs.isEmpty then "/" ++ name
  else "/" ++ name ++ " " ++ String.intercalate " " cmdArgs

/-- Decision core of `confirmDestructiveAction` (`commands/chat.go`):
the trimmed, lowercased typed answer confirms exactly when it is `y` or
`yes`; anything else (including end of input) declines.  The prompt text
— the destructive-action description — does not influence the
decision. -/
def confirmDestructive (answer : String) : Bool :=
  let resp := goToLower (goTrimSpace answer)
  resp == "y" || resp == "yes"

def cancelledResult : String := "Action cancelled by user."

/-- The tool-executor closure of the `/chat` handler (`commands/chat.go`,
newest revision): a destructive command requires confirmation before any
argument conversion or dispatch; a decline short-circuits that single
invocation with the cancellation result, leaving the store untouched.
`exec` abstracts `captureOutput(Execute(cmdStr))`: it consumes the built
command string and returns the updated store plus the captured output. -/
def chatToolExecutor (exec : StoreData → String → StoreData × String)
    (answer : String) (s : StoreData) (name : String)
    (args : List (String × String)) : StoreData × String :=
  match GetByName name with
  | some cmd =>
    if cmd.destructive && !confirmDestructive answer then (s, cancelledResult)
    else exec s (buildCmdStr name (convertArgsToSlice name args))
  | none => exec s (buildCmdStr name (convertArgsToSlice name args))

/-- Usage block of a backend response.  The `float64` cost is modelled
as an integer count of micro-dollars; the loop only ever adds costs. -/
structure UsageR where
  promptTokens : Int := 0
  completionTokens : Int := 0
  totalTokens : Int := 0
  cost : Int := 0
deriving DecidableEq, Repr

/-- One choice of a backend response: message content, tool calls and
finish reason. -/
structure ChoiceR where
  content : String := ""
  toolCalls : List ToolCallR := []
  finishReason : String := "stop"
deriving DecidableEq, Repr

/-- One backend exchange as seen by the loop: either a decoded response
(choices plus usage) or a transport/HTTP/parse/API failure surfaced by
`sendRequestWithTools`. -/
inductive BackendReply
  | ok (choices : List ChoiceR) (usage : UsageR)
  | fail (msg : String)
deriving DecidableEq, Repr

/-- State threaded through the `ChatWithTools` loop (llm package, newest
revision): wire messages, the returned history, the store as mutated by
executed tools, the usage accumulators, the accumulated assistant text
and the collected tool results. -/
structure LoopSt where
  store : StoreData
  messages : List Message := []
  history : List Message := []
  totTok : Int := 0
  totIn : Int := 0
  totOut : Int := 0
  totCost : Int := 0
  acc : String := ""
  toolResults : List String := []
deriving DecidableEq, Repr

/-- Outcome of a chat turn.  `moreRequests` reports that the scripted
backend replies ran out while the loop was about to issue yet another
request — the loop itself imposes no iteration cap. -/
inductive ChatOutcome
  | success (text finishReason : String) (totTok totIn totOut totCost : Int)
      (history : List Message) (store : StoreData)
  | failure (err : String) (history : List Message) (store : StoreData)
  | moreRequests (st : LoopSt)
deriving DecidableEq, Repr

/-- The per-response tool-execution loop: run each tool call through the
executor in order, appending the result as a tool message to both the
wire messages and the history, and collecting the result strings. -/
def execCalls
    (executor : StoreData → String → List (String × String) → StoreData × String) :
    List ToolCallR → LoopSt → LoopSt
  | [], st => st
  | tc :: rest, st =>
    let r := executor st.store tc.name tc.args
    execCalls executor rest { st with
      store := r.1,
      toolResults := st.toolResults ++ [r.2],
      messages := st.messages ++ [{ role := "tool", content := r.2, toolCallID := tc.id }],
      history := st.history ++ [{ role := "tool", content := r.2, toolCallID := tc.id }] }

/-- Content accumulation of the loop: join non-empty response contents
with single spaces. -/
def accumulate (acc content : String) : String :=
  if content == "" then acc
  else if acc == "" then content
  else acc ++ " " ++ content

def msgEmptyResponse : String :=
  "received empty response from API (no content or tool calls)"

def msgNoResponse : String := "no response from model"

def msgEmptyPrompt : String := "prompt cannot be empty"

/-- The request/tool-execution loop of `ChatWithTools` (llm package,
newest revision), over a script of backend replies consumed one per
iteration: a failed exchange aborts the turn; empty choices abort the
turn; a reply with tool calls executes them and loops; a reply without
tool calls finalizes, falling back to `Done.` when tools ran but no text
was narrated, and failing with the empty-response error when there is no
text, no executed tool and no input-token evidence. -/
def chatLoop
    (executor : StoreData → String → List (String × String) → StoreData × String) :
    List BackendReply → LoopSt → ChatOutcome
  | [], st => ChatOutcome.moreRequests st
  | BackendReply.fail msg :: _, st => ChatOutcome.failure msg st.history st.store
  | BackendReply.ok choices usage :: rest, st =>
    let st1 := { st with
      totTok := st.totTok + usage.totalTokens,
      totIn := st.totIn + usage.promptTokens,
      totOut := st.totOut + usage.completionTokens,
      totCost := st.totCost + usage.cost }
    match choices with
    | [] => ChatOutcome.failure msgNoResponse st1.history st1.store
    | choice :: _ =>
      let st2 := { st1 with acc := accumulate st1.acc choice.content }
      if choice.toolCalls.isEmpty then
        let fc0 := goTrimSpace st2.acc
        let fc := if fc0 == "" && !st2.toolResults.isEmpty then "Done." else fc0
        if fc == "" && st2.toolResults.isEmpty && st2.totIn == (0 : Int) then
          ChatOutcome.failure msgEmptyResponse st2.history st2.store
        else
          ChatOutcome.success fc choice.finishReason st2.totTok st2.totIn st2.totOut
            st2.totCost (st2.history ++ [{ role := "assistant", content := fc }]) st2.store
      else
        let st3 := { st2 with
          messages := st2.messages ++
            [{ role := "assistant", content := choice.content, toolCalls := choice.toolCalls }],
          history := st2.history ++
            [{ role := "assistant", content := choice.content, toolCalls := choice.toolCalls }] }
        chatLoop executor rest (execCalls executor choice.toolCalls st3)

/-- `ChatWithTools` (llm package, newest revision): reject a blank
message, append the user message to wire messages and history, and run
the loop against the scripted backend. -/
def ChatWithTools
    (executor : StoreData → String → List (String × String) → StoreData × String)
    (s : StoreData) (message : String) (history : List Message)
    (script : List BackendReply) : ChatOutcome :=
  if goTrimSpace message == "" then ChatOutcome.failure msgEmptyPrompt history s
  else
    chatLoop executor script
      { store := s,
        messages := history ++ [{ role := "user", content := message }],
        history := history ++ [{ role := "user", content := message }] }

/-- A scripted reply whose first choice requests a tool call and nothing
else — the shape a misbehaving backend would return forever. -/
def alwaysToolReply : BackendReply :=
  BackendReply.ok [{ content := "", toolCalls := [{ id := "call1", name := "projects" }] }] {}

/-- A reply holds tool calls when its first choice carries at least
one. -/
def replyRequestsTools : BackendReply → Bool
  | BackendReply.ok (c :: _) _ => !c.toolCalls.isEmpty
  | _ => false

/-- Executor that runs no command and reports a fixed result. -/
def nopExec : StoreData → String → List (String × String) → StoreData × String :=
  fun s _ _ => (s, "ok")

def emptyStore : StoreData := { projects := [], tasks := [], migrated := true }

/-- Recognizer for the still-looping outcome. -/
def ChatOutcome.isMoreRequests : ChatOutcome → Bool
  | ChatOutcome.moreRequests _ => true
  | _ => false

/-- Behaviour of a function handed to `captureOutput`: the text it
writes through the process stdout handle, in order, and whether it ends
by panicking instead of returning. -/
structure FnBehavior where
  writes : List String
  panics : Bool := false
deriving DecidableEq, Repr

/-- A destination text can be written to: the real standard output, or
the write end of the n-th pipe created so far. -/
inductive OutDest
  | standard
  | pipe (n : Nat)
deriving DecidableEq, Repr

/-- Process-global output state: the current value of the `os.Stdout`
global, the log of all writes — each tagged with the destination that
was current when it happened — and the next fresh pipe index. -/
structure OutWorld where
  stdout : OutDest := OutDest.standard
  writes : List (OutDest × String) := []
  nextPipe : Nat := 0
deriving DecidableEq, Repr

/-- One write through the current `os.Stdout`. -/
def writeOut (w : OutWorld) (txt : String) : OutWorld :=
  { w with writes := w.writes ++ [(w.stdout, txt)] }

/-- Run the captured function body: each of its writes goes through the
stdout handle current at that moment. -/
def runBody (fn : FnBehavior) (w : OutWorld) : OutWorld :=
  fn.writes.foldl writeOut w

/-- Text accumulated at a destination — what the draining goroutine has
copied into the in-memory buffer once the write end is closed. -/
def writtenTo (w : OutWorld) (d : OutDest) : String :=
  String.join ((w.writes.filter (fun e => e.1 == d)).map (fun e => e.2))

/-- `captureOutput` of `commands/chat.go` (newest revision, with the
deferred restore and the concurrent drain goroutine): save `os.Stdout`,
redirect it to a fresh pipe, run `fn`, restore the saved handle on every
exit path via `defer`, and — when `fn` returns normally — close the
write end, wait for the drain to finish and return the trimmed buffer
contents.  A panic propagates out (result `none`) after the deferred
restore has run.  `pipeOk` models whether `os.Pipe` succeeded; on
failure an error string is returned with nothing redirected. -/
def captureOutput (fn : FnBehavior) (pipeOk : Bool) (w : OutWorld) :
    OutWorld × Option String :=
  if !pipeOk then (w, some "Error capturing output: pipe failed")
  else
    let oldStdout := w.stdout
    let p := OutDest.pipe w.nextPipe
    let w1 := { w with stdout := p, nextPipe := w.nextPipe + 1 }
    let w2 := runBody fn w1
    let w3 := { w2 with stdout := oldStdout }
    if fn.panics then (w3, none)
    else (w3, some (goTrimSpace (writtenTo w2 p)))

/-- C1: for every store state and token, `ResolveProjectID` resolves in
three tiers evaluated in order, first match wins: (1) exact id equality;
(2) exact shortcut equality; (3) only for tokens of length at least 6,
unique prefix-of-id match, where zero matches is NotFound, exactly one
match resolves to that project id and two or more matches is Ambiguous;
a token shorter than 6 characters that matches neither an id nor a
shortcut is always NotFound and never reaches prefix resolution. -/
theorem resolveProjectID_three_tiers (s : StoreData) (token : String) :
    ((∃ p ∈ s.projects, p.id = token) →
      ResolveProjectID s token = Except.ok token) ∧
    ((∀ p ∈ s.projects, p.id ≠ token) →
      ∀ p, s.projects.find? (fun q => q.shortcut == token) = some p →
        ResolveProjectID s token = Except.ok p.id) ∧
    ((∀ p ∈ s.projects, p.id ≠ token ∧ p.shortcut ≠ token) →
      (token.length < 6 →
        ResolveProjectID s token = Except.error (StoreErr.notFound msgProjectNotFound)) ∧
      (6 ≤ token.length →
        (s.projects.filter (fun p => goHasPrefix p.id token) = [] →
          ResolveProjectID s token = Except.error (StoreErr.notFound msgProjectNotFound)) ∧
        (∀ p, s.projects.filter (fun p => goHasPrefix p.id token) = [p] →
          ResolveProjectID s token = Except.ok p.id) ∧
        (2 ≤ (s.projects.filter (fun p => goHasPrefix p.id token)).length →
          ResolveProjectID s token = Except.error (StoreErr.ambiguous msgProjectAmbiguous)))) := by
  refine ⟨?_, ?_, ?_⟩
  · rintro ⟨p, hp, hid⟩
    rcases h1 : s.projects.find? (fun q => q.id == token) with _ | q
    · rw [List.find?_eq_none] at h1
      exact absurd (by simpa using hid) (by simpa using h1 p hp)
    · have hq := List.find?_some h1
      simp only [beq_iff_eq] at hq
      simp [ResolveProjectID, h1, hq]
  · intro hno p hfind
    have h1 : s.projects.find? (fun q => q.id == token) = none := by
      rw [List.find?_eq_none]; intro q hq; simpa using hno q hq
    simp [ResolveProjectID, h1, hfind]
  · intro hno
    have h1 : s.projects.find? (fun q => q.id == token) = none := by
      rw [List.find?_eq_none]; intro q hq; simpa using (hno q hq).1
    have h2 : s.projects.find? (fun q => q.shortcut == token) = none := by
      rw [List.find?_eq_none]; intro q hq; simpa using (hno q hq).2
    refine ⟨?_, ?_⟩
    · intro hlen
      have hnotle : ¬ (6 ≤ token.length) := by omega
      simp [ResolveProjectID, h1, h2, hnotle]
    · intro hlen
      refine ⟨?_, ?_, ?_⟩
      · intro hfil
        simp [ResolveProjectID, h1, h2, hlen, hfil]
      · intro p hfil
        simp [ResolveProjectID, h1, h2, hlen, hfil]
      · intro hfil
        rcases hl : s.projects.filter (fun p => goHasPrefix p.id token) with _ | ⟨a, _ | ⟨b, rest⟩⟩
        · rw [hl] at hfil; simp at hfil
        · rw [hl] at hfil; simp at hfil
        · simp [ResolveProjectID, h1, h2, hlen, hl]

/-- Witness for C1 at a concrete store: a unique 6-character id prefix
resolves, and the 5-character prefix of the same id is NotFound. -/
theorem resolveProjectID_three_tiers_witness :
    ResolveProjectID demoStoreC1 "bbbbbb" =
      Except.ok "bbbbbb22-0000-4000-8000-000000000002" ∧
    ResolveProjectID demoStoreC1 "bbbbb" =
      Except.error (StoreErr.notFound msgProjectNotFound) := by
  constructor
  · exact (((resolveProjectID_three_tiers demoStoreC1 "bbbbbb").2.2
      (by decide)).2 (by decide)).2.1
      { id := "bbbbbb22-0000-4000-8000-000000000002", name := "Home", shortcut := "home" }
      (by decide)
  · exact ((resolveProjectID_three_tiers demoStoreC1 "bbbbb").2.2 (by decide)).1 (by decide)

/-- Character class of the shortcut regex: upper-case letter, lower-case
letter, digit, or hyphen, as ASCII code ranges. -/
theorem shortcutChar_iff (c : Char) : (c.isAlpha || c.isDigit || c == '-') = true ↔
    ((65 ≤ c.toNat ∧ c.toNat ≤ 90) ∨ (97 ≤ c.toNat ∧ c.toNat ≤ 122) ∨
     (48 ≤ c.toNat ∧ c.toNat ≤ 57) ∨ c = '-') := by
  simp only [Char.isAlpha, Char.isUpper, Char.isLower, Char.isDigit, Bool.or_eq_true,
    Bool.and_eq_true, decide_eq_true_eq, beq_iff_eq, ge_iff_le, UInt32.le_def, Fin.le_def]
  norm_num
  tauto

/-- The implementation format check agrees with the spec-side regex
reading. -/
theorem validShortcut_iff (sc : String) : validShortcut sc = true ↔ ShortcutPattern sc := by
  unfold validShortcut ShortcutPattern
  simp only [Bool.and_eq_true, List.all_eq_true, decide_eq_true_eq]
  constructor
  · rintro ⟨⟨h1, h2⟩, h3⟩
    exact ⟨h1, h2, fun c hc => (shortcutChar_iff c).mp (h3 c hc)⟩
  · rintro ⟨h1, h2, h3⟩
    exact ⟨⟨h1, h2⟩, fun c hc => (shortcutChar_iff c).mpr (h3 c hc)⟩

/-- C5: `SetProjectShortcut` validates format, then conflict, then
existence: it fails with the `invalid shortcut` InvalidFormat error iff
the new shortcut does not match the 1-to-20-character
alphanumeric-or-hyphen pattern; otherwise it fails with the
`already in use` Conflict error iff a different project already holds
the shortcut; otherwise it fails NotFound iff no project has the id;
otherwise it succeeds and `GetProject` afterwards returns exactly the new
shortcut. -/
theorem setProjectShortcut_order (s : StoreData) (id sc : String) :
    (SetProjectShortcut s id sc = Except.error (StoreErr.invalidFormat msgShortcutInvalid) ↔
      ¬ ShortcutPattern sc) ∧
    (ShortcutPattern sc →
      (SetProjectShortcut s id sc = Except.error (StoreErr.conflict msgShortcutTaken) ↔
        ∃ p ∈ s.projects, p.shortcut = sc ∧ p.id ≠ id)) ∧
    (ShortcutPattern sc → (∀ p ∈ s.projects, p.shortcut = sc → p.id = id) →
      (SetProjectShortcut s id sc = Except.error (StoreErr.notFound msgProjectNotFound) ↔
        ∀ p ∈ s.projects, p.id ≠ id)) ∧
    (ShortcutPattern sc → (∀ p ∈ s.projects, p.shortcut = sc → p.id = id) →
      (∃ p ∈ s.projects, p.id = id) →
      ∃ s2, SetProjectShortcut s id sc = Except.ok s2 ∧
        ∃ p2, GetProject s2 id = Except.ok p2 ∧ p2.shortcut = sc ∧ p2.id = id) := by
  refine ⟨?_, ?_, ?_, ?_⟩
  · by_cases hb : validShortcut sc = true
    · have hpat := (validShortcut_iff sc).mp hb
      constructor
      · intro h
        by_cases hc : s.projects.any (fun p => p.shortcut == sc && !(p.id == id)) = true <;>
          by_cases he : s.projects.any (fun p => p.id == id) = true <;>
            simp [SetProjectShortcut, hb, hc, he] at h
      · intro h; exact absurd hpat h
    · have hpat : ¬ ShortcutPattern sc := fun h => hb ((validShortcut_iff sc).mpr h)
      simp only [Bool.not_eq_true] at hb
      simp [SetProjectShortcut, hb, hpat]
  · intro hpat
    have hb : validShortcut sc = true := (validShortcut_iff sc).mpr hpat
    by_cases hc : s.projects.any (fun p => p.shortcut == sc && !(p.id == id)) = true
    · have hc2 : ∃ p ∈ s.projects, p.shortcut = sc ∧ p.id ≠ id := by
        rw [List.any_eq_true] at hc
        obtain ⟨p, hp, h⟩ := hc
        refine ⟨p, hp, ?_⟩
        simpa using h
      simp [SetProjectShortcut, hb, hc, hc2]
    · have hc2 : ¬ ∃ p ∈ s.projects, p.shortcut = sc ∧ p.id ≠ id := by
        rintro ⟨p, hp, h1, h2⟩
        apply hc
        rw [List.any_eq_true]
        exact ⟨p, hp, by simp [h1, h2]⟩
      rw [Bool.not_eq_true] at hc
      by_cases he : s.projects.any (fun p => p.id == id) = true <;>
        simp [SetProjectShortcut, hb, hc, he, hc2]
  · intro hpat hnoc
    have hb : validShortcut sc = true := (validShortcut_iff sc).mpr hpat
    have hc : s.projects.any (fun p => p.shortcut == sc && !(p.id == id)) = false := by
      rw [Bool.eq_false_iff]
      intro hcon
      rw [List.any_eq_true] at hcon
      obtain ⟨p, hp, hcon⟩ := hcon
      simp only [Bool.and_eq_true, beq_iff_eq, Bool.not_eq_true', beq_eq_false_iff_ne] at hcon
      exact hcon.2 (hnoc p hp hcon.1)
    by_cases he : s.projects.any (fun p => p.id == id) = true
    · have he2 : ¬ ∀ p ∈ s.projects, p.id ≠ id := by
        rw [List.any_eq_true] at he
        obtain ⟨p, hp, hpe⟩ := he
        intro hall
        exact hall p hp (by simpa using hpe)
      simp [SetProjectShortcut, hb, hc, he, he2]
    · have he2 : ∀ p ∈ s.projects, p.id ≠ id := by
        intro p hp hpe
        apply he
        rw [List.any_eq_true]
        exact ⟨p, hp, by simp [hpe]⟩
      rw [Bool.not_eq_true] at he
      simp only [SetProjectShortcut, hb, Bool.not_true, Bool.false_eq_true, if_false, hc, he]
      simpa using he2
  · intro hpat hnoc hex
    have hb : validShortcut sc = true := (validShortcut_iff sc).mpr hpat
    have hc : s.projects.any (fun p => p.shortcut == sc && !(p.id == id)) = false := by
      rw [Bool.eq_false_iff]
      intro hcon
      rw [List.any_eq_true] at hcon
      obtain ⟨p, hp, hcon⟩ := hcon
      simp only [Bool.and_eq_true, beq_iff_eq, Bool.not_eq_true', beq_eq_false_iff_ne] at hcon
      exact hcon.2 (hnoc p hp hcon.1)
    obtain ⟨p0, hp0, hp0id⟩ := hex
    have he : s.projects.any (fun p => p.id == id) = true := by
      rw [List.any_eq_true]; exact ⟨p0, hp0, by simp [hp0id]⟩
    refine ⟨{ s with projects := s.projects.map (fun p => if p.id == id then { p with shortcut := sc } else p) }, ?_, ?_⟩
    · simp [SetProjectShortcut, hb, hc, he]
    · have hpred : ((fun p : Project => p.id == id) ∘
          fun p => if p.id == id then { p with shortcut := sc } else p) =
          (fun p : Project => p.id == id) := by
        funext p
        by_cases hpe : p.id = id <;> simp [Function.comp, hpe]
      rcases hf : s.projects.find? (fun p => p.id == id) with _ | q
      · rw [List.find?_eq_none] at hf
        exact absurd (by simp [hp0id]) (hf p0 hp0)
      · have hq := List.find?_some hf
        simp only [beq_iff_eq] at hq
        refine ⟨{ q with shortcut := sc }, ?_, rfl, hq⟩
        unfold GetProject
        rw [List.find?_map, hpred, hf]
        simp [hq]

/-- Witness for C5: at a concrete two-project store, a 20-character
shortcut passes the format check and round-trips through `GetProject`, a
21-character shortcut is rejected as invalid, and stealing another
project's shortcut is rejected as already in use. -/
theorem setProjectShortcut_order_witness :
    (∃ s2, SetProjectShortcut demoStoreC1
        "aaaaaa11-0000-4000-8000-000000000001" "aaaaaaaaaabbbbbbbbbb" = Except.ok s2 ∧
      ∃ p2, GetProject s2 "aaaaaa11-0000-4000-8000-000000000001" = Except.ok p2 ∧
        p2.shortcut = "aaaaaaaaaabbbbbbbbbb" ∧
        p2.id = "aaaaaa11-0000-4000-8000-000000000001") ∧
    SetProjectShortcut demoStoreC1 "aaaaaa11-0000-4000-8000-000000000001"
      "aaaaaaaaaabbbbbbbbbbc" = Except.error (StoreErr.invalidFormat msgShortcutInvalid) ∧
    SetProjectShortcut demoStoreC1 "aaaaaa11-0000-4000-8000-000000000001"
      "home" = Except.error (StoreErr.conflict msgShortcutTaken) := by
  refine ⟨?_, ?_, ?_⟩
  · exact (setProjectShortcut_order demoStoreC1
      "aaaaaa11-0000-4000-8000-000000000001" "aaaaaaaaaabbbbbbbbbb").2.2.2
      (by decide) (by decide)
      ⟨{ id := "aaaaaa11-0000-4000-8000-000000000001", name := "Work", shortcut := "aaaaaa11" }, by decide, by decide⟩
  · exact (setProjectShortcut_order demoStoreC1
      "aaaaaa11-0000-4000-8000-000000000001" "aaaaaaaaaabbbbbbbbbbc").1.mpr (by decide)
  · exact ((setProjectShortcut_order demoStoreC1
      "aaaaaa11-0000-4000-8000-000000000001" "home").2.1 (by decide)).mpr
      ⟨{ id := "bbbbbb22-0000-4000-8000-000000000002", name := "Home", shortcut := "home" }, by decide, by decide⟩

/-- A successful project resolution always returns the id of a project
that is in the store. -/
theorem resolveProjectID_ok_mem {s : StoreData} {tok rid : String}
    (h : ResolveProjectID s tok = Except.ok rid) : ∃ p ∈ s.projects, p.id = rid := by
  unfold ResolveProjectID at h
  rcases h1 : s.projects.find? (fun p => p.id == tok) with _ | p <;> rw [h1] at h
  · rcases h2 : s.projects.find? (fun p => p.shortcut == tok) with _ | p <;> rw [h2] at h
    · by_cases hlen : 6 ≤ tok.length
      · rw [if_pos hlen] at h
        rcases h3 : s.projects.filter (fun p => goHasPrefix p.id tok)
          with _ | ⟨a, _ | ⟨b, rest⟩⟩ <;> rw [h3] at h
        · exact absurd h (by simp)
        · obtain rfl : a.id = rid := by simpa using h
          have ha : a ∈ s.projects.filter (fun p => goHasPrefix p.id tok) := by
            rw [h3]; exact List.mem_singleton.mpr rfl
          exact ⟨a, List.mem_of_mem_filter ha, rfl⟩
        · exact absurd h (by simp)
      · rw [if_neg hlen] at h
        exact absurd h (by simp)
    · obtain rfl : p.id = rid := by simpa using h
      exact ⟨p, List.mem_of_find?_eq_some h2, rfl⟩
  · obtain rfl : p.id = rid := by simpa using h
    exact ⟨p, List.mem_of_find?_eq_some h1, rfl⟩

/-- Every store operation preserves the no-orphan invariant. -/
theorem applyOp_noOrphans {s s2 : StoreData} (op : StoreOp)
    (hinv : NoOrphans s) (h : applyOp s op = Except.ok s2) : NoOrphans s2 := by
  cases op with
  | createProject newId name now =>
    obtain rfl : (CreateProject s newId name now).1 = s2 := by simpa [applyOp] using h
    intro t ht
    obtain ⟨p, hp, hpe⟩ := hinv t ht
    exact ⟨p, List.mem_append_left _ hp, hpe⟩
  | setShortcut id sc =>
    simp only [applyOp, SetProjectShortcut] at h
    split at h
    · cases h
    · split at h
      · cases h
      · split at h
        · obtain rfl := (Except.ok.injEq _ _).mp h
          intro t ht
          obtain ⟨p, hp, hpe⟩ := hinv t ht
          refine ⟨if p.id == id then { p with shortcut := sc } else p,
            List.mem_map_of_mem _ hp, ?_⟩
          by_cases hpe2 : p.id = id <;> simpa [hpe2] using hpe
        · cases h
  | delProject id =>
    simp only [applyOp, DeleteProject] at h
    split at h
    · obtain rfl := (Except.ok.injEq _ _).mp h
      intro t ht
      have ht2 := List.mem_filter.mp ht
      obtain ⟨p, hp, hpe⟩ := hinv t ht2.1
      refine ⟨p, List.mem_filter.mpr ⟨hp, ?_⟩, hpe⟩
      have : ¬ (t.projectID = id) := by simpa using ht2.2
      simp [hpe, this]
    · cases h
  | createTask newId ref name now =>
    simp only [applyOp, CreateTask] at h
    rcases hr : ResolveProjectID s ref with e | pid <;> rw [hr] at h
    · cases h
    · simp only [Except.map] at h
      obtain rfl := (Except.ok.injEq _ _).mp h
      intro t ht
      rcases List.mem_append.mp ht with hold | hnew
      · obtain ⟨p, hp, hpe⟩ := hinv t hold
        exact ⟨p, hp, hpe⟩
      · obtain ⟨p, hp, hpe⟩ := resolveProjectID_ok_mem hr
        obtain rfl : t = { id := newId, projectID := pid, name := name, done := false, createdAt := now } := List.mem_singleton.mp hnew
        exact ⟨p, hp, hpe⟩
  | updateTask id done =>
    simp only [applyOp, UpdateTask] at h
    split at h
    · obtain rfl := (Except.ok.injEq _ _).mp h
      intro t ht
      obtain ⟨u, hu, hue⟩ := List.mem_map.mp ht
      obtain ⟨p, hp, hpe⟩ := hinv u hu
      refine ⟨p, hp, ?_⟩
      rw [← hue]
      by_cases hui : u.id = id <;> simp [hui, hpe]
    · cases h
  | setDueDate id d =>
    simp only [applyOp, SetTaskDueDate] at h
    split at h
    · obtain rfl := (Except.ok.injEq _ _).mp h
      intro t ht
      obtain ⟨u, hu, hue⟩ := List.mem_map.mp ht
      obtain ⟨p, hp, hpe⟩ := hinv u hu
      refine ⟨p, hp, ?_⟩
      rw [← hue]
      by_cases hui : u.id = id <;> simp [hui, hpe]
    · cases h
  | setDuration id dur =>
    simp only [applyOp, SetTaskDuration] at h
    split at h
    · obtain rfl := (Except.ok.injEq _ _).mp h
      intro t ht
      obtain ⟨u, hu, hue⟩ := List.mem_map.mp ht
      obtain ⟨p, hp, hpe⟩ := hinv u hu
      refine ⟨p, hp, ?_⟩
      rw [← hue]
      by_cases hui : u.id = id <;> simp [hui, hpe]
    · cases h
  | delTask id =>
    simp only [applyOp, DeleteTask] at h
    split at h
    · obtain rfl := (Except.ok.injEq _ _).mp h
      intro t ht
      exact hinv t (List.mem_of_mem_filter ht)
    · cases h

/-- A string is a prefix of itself under the Go `strings.HasPrefix`
model. -/
theorem goHasPrefix_refl (x : String) : goHasPrefix x x = true := by
  unfold goHasPrefix
  rw [List.isPrefixOf_iff_prefix]

/-- C2: deleting a project removes, in the same single new document
value, the project and every task whose `project_id` equals it; after
success no listing returns such a task, no such task's id resolves any
longer (assuming task ids are prefix-free, the collision-resistance
invariant of UUID generation), and every store operation preserves the
invariant that no task refers to a deleted project. -/
theorem deleteProject_cascade (s s2 : StoreData) (pid : String)
    (hok : DeleteProject s pid = Except.ok s2)
    (hpf : ∀ t ∈ s.tasks, ∀ u ∈ s.tasks, goHasPrefix u.id t.id = true → u = t) :
    (∀ t ∈ ListAllTasks s2, t.projectID ≠ pid) ∧
    (∀ qid, ∀ t ∈ ListTasks s2 qid, t.projectID ≠ pid) ∧
    (∀ t ∈ s.tasks, t.projectID = pid →
      ResolveTaskID s2 t.id = Except.error (StoreErr.notFound msgTaskNotFound)) ∧
    (s2.projects = s.projects.filter (fun p => !(p.id == pid)) ∧
      s2.tasks = s.tasks.filter (fun t => !(t.projectID == pid))) ∧
    (∀ (s1 s3 : StoreData) (op : StoreOp),
      NoOrphans s1 → applyOp s1 op = Except.ok s3 → NoOrphans s3) := by
  have hshape : s2.projects = s.projects.filter (fun p => !(p.id == pid)) ∧
      s2.tasks = s.tasks.filter (fun t => !(t.projectID == pid)) := by
    unfold DeleteProject at hok
    split at hok
    · obtain rfl := (Except.ok.injEq _ _).mp hok
      exact ⟨rfl, rfl⟩
    · cases hok
  obtain ⟨hproj, htasks⟩ := hshape
  have hmem : ∀ t ∈ s2.tasks, t ∈ s.tasks ∧ t.projectID ≠ pid := by
    intro t ht
    rw [htasks] at ht
    have h2 := List.mem_filter.mp ht
    exact ⟨h2.1, by simpa using h2.2⟩
  refine ⟨?_, ?_, ?_, ⟨hproj, htasks⟩, ?_⟩
  · intro t ht
    exact (hmem t ht).2
  · intro qid t ht
    exact (hmem t (List.mem_of_mem_filter ht)).2
  · intro t ht hproj_t
    have hfind : s2.tasks.find? (fun u => u.id == t.id) = none := by
      rw [List.find?_eq_none]
      intro u hu
      simp only [beq_iff_eq]
      intro hue
      have hu2 := hmem u hu
      have hut : u = t := hpf t ht u hu2.1 (by rw [hue]; exact goHasPrefix_refl t.id)
      rw [hut] at hu2
      exact hu2.2 hproj_t
    have hfil : s2.tasks.filter (fun u => goHasPrefix u.id t.id) = [] := by
      rw [List.filter_eq_nil_iff]
      intro u hu hpre
      have hu2 := hmem u hu
      have hut : u = t := hpf t ht u hu2.1 hpre
      rw [hut] at hu2
      exact hu2.2 hproj_t
    unfold ResolveTaskID
    rw [hfind]
    by_cases hlen : 6 ≤ t.id.length
    · rw [if_pos hlen, hfil]
    · rw [if_neg hlen]
  · intro s1 s3 op h1 h2
    exact applyOp_noOrphans op h1 h2

/-- Witness for C2: after deleting the first demo project, the id of its
former task no longer resolves. -/
theorem deleteProject_cascade_witness :
    ResolveTaskID demoStoreC2After "ttttt111-0000-4000-8000-000000000011" =
      Except.error (StoreErr.notFound msgTaskNotFound) := by
  exact (deleteProject_cascade demoStoreC2 demoStoreC2After
      "cccccc33-0000-4000-8000-000000000003" (by rfl) (by decide)).2.2.1
    { id := "ttttt111-0000-4000-8000-000000000011", projectID := "cccccc33-0000-4000-8000-000000000003", name := "T1", done := false }
    (by decide) (by decide)

/-- The selection fold agrees with the two spec-side filters, for any
initial accumulator contents. -/
theorem rangeFold_eq (start endd : Date) (io : Bool) (tasks : List Task)
    (f o : List Task) :
    tasks.foldl (rangeStep start endd io) (f, o) =
      (f ++ tasks.filter (specInRange start endd),
        o ++ tasks.filter (specOverdue start io)) := by
  induction tasks generalizing f o with
  | nil => simp
  | cons t rest ih =>
    rw [List.foldl_cons]
    rcases hdd : t.dueDate with _ | dd
    · have h1 : rangeStep start endd io (f, o) t = (f, o) := by
        unfold rangeStep
        by_cases hd : t.done <;> simp [hd, hdd]
      rw [h1, ih]
      have h2 : specInRange start endd t = false := by
        by_cases hd : t.done <;> simp [specInRange, hd, hdd]
      have h3 : specOverdue start io t = false := by
        by_cases hd : t.done <;> simp [specOverdue, hd, hdd]
      rw [List.filter_cons_of_neg (by simp [h2]), List.filter_cons_of_neg (by simp [h3])]
    · by_cases hd : t.done
      · have h1 : rangeStep start endd io (f, o) t = (f, o) := by
          unfold rangeStep
          simp [hd]
        rw [h1, ih]
        rw [List.filter_cons_of_neg (by simp [specInRange, hd]),
          List.filter_cons_of_neg (by simp [specOverdue, hd])]
      · by_cases hbs : (dateOnly dd).before start
        · have h2 : specInRange start endd t = false := by
            simp [specInRange, hd, hdd, hbs]
          by_cases hio : io
          · have h1 : rangeStep start endd io (f, o) t = (f, o ++ [t]) := by
              unfold rangeStep
              simp [hd, hdd, hbs, hio]
            rw [h1, ih]
            rw [List.filter_cons_of_neg (by simp [h2]),
              List.filter_cons_of_pos (by simp [specOverdue, hd, hdd, hbs, hio])]
            simp
          · have h1 : rangeStep start endd io (f, o) t = (f, o) := by
              unfold rangeStep
              simp [hd, hdd, hbs, hio]
            rw [h1, ih]
            rw [List.filter_cons_of_neg (by simp [h2]),
              List.filter_cons_of_neg (by simp [specOverdue, hio])]
        · have h3 : specOverdue start io t = false := by
            simp [specOverdue, hd, hdd, hbs]
          by_cases hbe : (dateOnly dd).before endd
          · have h1 : rangeStep start endd io (f, o) t = (f ++ [t], o) := by
              unfold rangeStep
              simp [hd, hdd, hbs, hbe]
            rw [h1, ih]
            rw [List.filter_cons_of_pos (by simp [specInRange, hd, hdd, hbs, hbe]),
              List.filter_cons_of_neg (by simp [h3])]
            simp
          · have h1 : rangeStep start endd io (f, o) t = (f, o) := by
              unfold rangeStep
              simp [hd, hdd, hbs, hbe]
            rw [h1, ih]
            rw [List.filter_cons_of_neg (by simp [specInRange, hd, hdd, hbs, hbe]),
              List.filter_cons_of_neg (by simp [h3])]

/-- C6: the date-range listing selects exactly the not-done tasks with a
due date whose calendar date lies in `[start, end)`; with overdue
inclusion it additionally selects the not-done tasks due strictly before
`start` and places all of them before the in-range tasks; a done task is
never selected in either bucket. -/
theorem listTasksInRange_buckets (tasks : List Task) (start endd : Date) (io : Bool) :
    listTasksInRange tasks start endd io =
      tasks.filter (specOverdue start io) ++ tasks.filter (specInRange start endd) ∧
    (io = false → listTasksInRange tasks start endd io =
      tasks.filter (specInRange start endd)) ∧
    (∀ t ∈ listTasksInRange tasks start endd io, t.done = false) := by
  have h := rangeFold_eq start endd io tasks [] []
  have hmain : listTasksInRange tasks start endd io =
      tasks.filter (specOverdue start io) ++ tasks.filter (specInRange start endd) := by
    unfold listTasksInRange
    rw [h]
    simp
  refine ⟨hmain, ?_, ?_⟩
  · intro hio
    rw [hmain, hio]
    have : tasks.filter (specOverdue start false) = [] := by
      rw [List.filter_eq_nil_iff]
      intro t _
      simp [specOverdue]
    rw [this, List.nil_append]
  · intro t ht
    rw [hmain] at ht
    rcases List.mem_append.mp ht with h1 | h1
    · have := (List.mem_filter.mp h1).2
      simp only [specOverdue, Bool.and_eq_true, Bool.not_eq_true'] at this
      exact this.1.2
    · have := (List.mem_filter.mp h1).2
      simp only [specInRange, Bool.and_eq_true, Bool.not_eq_true'] at this
      exact this.1

/-- Appending text on the left preserves it as a prefix. -/
theorem goHasPrefix_of_append (x y : String) : goHasPrefix (x ++ y) x = true := by
  unfold goHasPrefix
  rw [List.isPrefixOf_iff_prefix, String.data_append]
  exact List.prefix_append _ _

theorem trimLoop_zero (h : List Message) : trimLoop 0 false h = h := by
  induction h with
  | nil => simp [trimLoop]
  | cons m rest ih => rw [trimLoop, ih]

theorem removeOldest_zero (h : List Message) : removeOldest 0 h = h := by
  cases h <;> simp [removeOldest]

theorem removeOldest_nil (n : Nat) : removeOldest n [] = [] := by
  cases n <;> simp [removeOldest]

/-- On well-formed histories the implementation loop is exactly the
drop-oldest-pairs description. -/
theorem trimLoop_eq_removeOldest {h : List Message} (hwf : WFHistory h) :
    ∀ n, trimLoop n false h = removeOldest n h := by
  induction hwf with
  | nil => intro n; cases n <;> simp [trimLoop, removeOldest]
  | ctx c a rest hc ha hr ih =>
    intro n
    cases n with
    | zero => rw [trimLoop_zero, removeOldest_zero]
    | succ k =>
      rw [trimLoop, if_pos hc, trimLoop, removeOldest, if_pos hc]
      exact ih k
  | other m rest hm hr ih =>
    intro n
    cases n with
    | zero => rw [trimLoop_zero, removeOldest_zero]
    | succ k =>
      rw [trimLoop, if_neg (by simp [hm]), removeOldest, if_neg (by simp [hm])]
      rw [ih (k + 1)]

/-- Dropping `n` oldest pairs removes exactly `n` context entries. -/
theorem contextCount_removeOldest {h : List Message} (hwf : WFHistory h) :
    ∀ n, contextCount (removeOldest n h) = contextCount h - n := by
  induction hwf with
  | nil => intro n; cases n <;> simp [removeOldest, contextCount]
  | ctx c a rest hc ha hr ih =>
    intro n
    have hcount : contextCount (c :: a :: rest) = contextCount rest + 1 := by
      simp [contextCount, List.filter_cons, hc, ha]
    cases n with
    | zero => rw [removeOldest_zero]; omega
    | succ k =>
      rw [removeOldest, if_pos hc]
      have := ih k
      simp only [List.tail_cons] at *
      omega
  | other m rest hm hr ih =>
    intro n
    have hcount : contextCount (m :: rest) = contextCount rest := by
      simp [contextCount, List.filter_cons, hm]
    cases n with
    | zero => rw [removeOldest_zero]; omega
    | succ k =>
      rw [removeOldest, if_neg (by simp [hm])]
      have h2 : contextCount (m :: removeOldest (k + 1) rest) =
          contextCount (removeOldest (k + 1) rest) := by
        simp [contextCount, List.filter_cons, hm]
      rw [h2, ih (k + 1)]
      omega

/-- Dropping oldest pairs preserves well-formedness. -/
theorem wf_removeOldest {h : List Message} (hwf : WFHistory h) :
    ∀ n, WFHistory (removeOldest n h) := by
  induction hwf with
  | nil => intro n; rw [removeOldest_nil]; exact WFHistory.nil
  | ctx c a rest hc ha hr ih =>
    intro n
    cases n with
    | zero => rw [removeOldest_zero]; exact WFHistory.ctx c a rest hc ha hr
    | succ k =>
      rw [removeOldest, if_pos hc]
      exact ih k
  | other m rest hm hr ih =>
    intro n
    cases n with
    | zero => rw [removeOldest_zero]; exact WFHistory.other m rest hm hr
    | succ k =>
      rw [removeOldest, if_neg (by simp [hm])]
      exact WFHistory.other m _ hm (ih (k + 1))

/-- Appending a context entry and its acknowledgment keeps a history
well-formed. -/
theorem wf_append_pair {h : List Message} (hwf : WFHistory h) {c a : Message}
    (hc : isContext c = true) (ha : isContext a = false) :
    WFHistory (h ++ [c, a]) := by
  induction hwf with
  | nil => exact WFHistory.ctx c a [] hc ha WFHistory.nil
  | ctx c0 a0 rest hc0 ha0 hr ih => exact WFHistory.ctx c0 a0 _ hc0 ha0 ih
  | other m rest hm hr ih => exact WFHistory.other m _ hm ih

/-- C8: after every `AddCommandContext` call on a well-formed history the
history holds at most 10 injected command-context entries; the trim
removes the oldest entries first, each together with its
immediately-following paired acknowledgment (the `removeOldest`
description), and the pairing — hence the user/assistant alternation of
the remaining context pairs — is preserved. -/
theorem addCommandContext_cap (today weekday : String) (h : List Message)
    (command output : String) (hwf : WFHistory h)
    (hsys : isContext (systemMessage today weekday) = false) :
    contextCount (AddCommandContext today weekday h command output) ≤
      maxCommandContextEntries ∧
    WFHistory (AddCommandContext today weekday h command output) ∧
    AddCommandContext today weekday h command output =
      removeOldest
        (contextCount (ensureSystemPrompt today weekday h) + 1 - maxCommandContextEntries)
        (ensureSystemPrompt today weekday h ++ [contextMessage command output, ackMessage]) := by
  have hctx : isContext (contextMessage command output) = true := by
    unfold isContext contextMessage
    exact goHasPrefix_of_append _ _
  have hack : isContext ackMessage = false := by decide
  have hwf1 : WFHistory (ensureSystemPrompt today weekday h) := by
    unfold ensureSystemPrompt
    split
    · exact WFHistory.other _ _ hsys WFHistory.nil
    · exact hwf
  have hwf2 : WFHistory
      (ensureSystemPrompt today weekday h ++ [contextMessage command output, ackMessage]) :=
    wf_append_pair hwf1 hctx hack
  have hcount2 : contextCount
      (ensureSystemPrompt today weekday h ++ [contextMessage command output, ackMessage]) =
      contextCount (ensureSystemPrompt today weekday h) + 1 := by
    simp [contextCount, List.filter_append, List.filter_cons, hctx, hack]
  have hmain : AddCommandContext today weekday h command output =
      removeOldest
        (contextCount (ensureSystemPrompt today weekday h) + 1 - maxCommandContextEntries)
        (ensureSystemPrompt today weekday h ++ [contextMessage command output, ackMessage]) := by
    unfold AddCommandContext trimCommandContext
    rw [hcount2]
    split
    · exact trimLoop_eq_removeOldest hwf2 _
    · rename_i hle
      have h10 : maxCommandContextEntries = 10 := rfl
      have hz : contextCount (ensureSystemPrompt today weekday h) + 1 -
          maxCommandContextEntries = 0 := by omega
      rw [hz, removeOldest_zero]
  refine ⟨?_, ?_, hmain⟩
  · rw [hmain, contextCount_removeOldest hwf2, hcount2]
    omega
  · rw [hmain]
    exact wf_removeOldest hwf2 _

/-- Witness for C8: a fresh history, after one injected command context,
carries one context entry (at most the cap) and stays well-formed. -/
theorem addCommandContext_cap_witness :
    contextCount (AddCommandContext "2025-01-01" "Wednesday" [] "/projects" "No projects yet.") ≤
      maxCommandContextEntries := by
  exact (addCommandContext_cap "2025-01-01" "Wednesday" [] "/projects" "No projects yet."
    WFHistory.nil (by decide)).1

/-- C10: a tool call whose command name is absent from the
argument-ordering table — which includes the registered, non-hidden
commands `today`, `tomorrow`, `week` and `shortcut` — is executed with an
empty argument slice, every supplied tool argument silently dropped from
the dispatched command string; a name present in the table is rendered
exactly in the table's declared key order, skipping keys absent from the
call's argument map. -/
theorem convertArgsToSlice_table (args : List (String × String)) :
    (∀ name, argOrder.lookup name = none → convertArgsToSlice name args = []) ∧
    (∀ name, argOrder.lookup name = none →
      buildCmdStr name (convertArgsToSlice name args) = "/" ++ name) ∧
    (∀ name order, argOrder.lookup name = some order →
      convertArgsToSlice name args = order.filterMap (lookupArg args)) ∧
    (∀ n ∈ ["today", "tomorrow", "week", "shortcut"],
      (∃ c, GetByName n = some c ∧ c.hidden = false) ∧
      argOrder.lookup n = none ∧ convertArgsToSlice n args = []) := by
  have habsent : ∀ name, argOrder.lookup name = none → convertArgsToSlice name args = [] := by
    intro name h
    unfold convertArgsToSlice
    rw [h]
  refine ⟨habsent, ?_, ?_, ?_⟩
  · intro name h
    rw [habsent name h]
    simp [buildCmdStr]
  · intro name order h
    unfold convertArgsToSlice
    rw [h]
  · intro n hn
    simp only [List.mem_cons, List.not_mem_nil, or_false] at hn
    rcases hn with rfl | rfl | rfl | rfl
    · exact ⟨⟨{ name := "/today", params := ["project_id"] }, by decide, rfl⟩,
        by decide, habsent _ (by decide)⟩
    · exact ⟨⟨{ name := "/tomorrow", params := ["project_id"] }, by decide, rfl⟩,
        by decide, habsent _ (by decide)⟩
    · exact ⟨⟨{ name := "/week", params := ["project_id"] }, by decide, rfl⟩,
        by decide, habsent _ (by decide)⟩
    · exact ⟨⟨{ name := "/shortcut", params := ["project_id", "new_shortcut"] }, by decide, rfl⟩,
        by decide, habsent _ (by decide)⟩

/-- Witness for C10: a supplied argument to `/week` is dropped entirely,
while `/due` arguments are rendered in table order. -/
theorem convertArgsToSlice_table_witness :
    convertArgsToSlice "week" [("project_id", "abc123")] = [] ∧
    buildCmdStr "week" (convertArgsToSlice "week" [("project_id", "abc123")]) = "/week" ∧
    convertArgsToSlice "due"
      [("date", "2025-01-02"), ("task_id", "t1")] = ["t1", "2025-01-02"] := by
  refine ⟨?_, ?_, ?_⟩
  · exact (convertArgsToSlice_table [("project_id", "abc123")]).1 "week" (by decide)
  · exact (convertArgsToSlice_table [("project_id", "abc123")]).2.1 "week" (by decide)
  · rw [(convertArgsToSlice_table [("date", "2025-01-02"), ("task_id", "t1")]).2.2.1
      "due" ["task_id", "date"] (by decide)]
    decide

/-- C3: when a tool invocation targets a command whose destructive flag
is set and the interactive answer is anything that does not confirm, the
invocation returns the cancellation result for every possible dispatch
function — so no handler runs and the store is returned unchanged — the
cancellation text contains `cancelled`, and the per-turn tool-execution
loop still produces one result for every remaining invocation. -/
theorem destructive_decline (name : String) (cmd : CmdMeta) (answer : String)
    (hcmd : GetByName name = some cmd)
    (hdes : cmd.destructive = true)
    (hans : confirmDestructive answer = false) :
    (∀ exec s args, chatToolExecutor exec answer s name args = (s, cancelledResult)) ∧
    (∃ pre post, cancelledResult = pre ++ "cancelled" ++ post) ∧
    (∀ exec tcs st,
      (execCalls (chatToolExecutor exec answer) tcs st).toolResults.length =
        st.toolResults.length + tcs.length) := by
  refine ⟨?_, ⟨"Action ", " by user.", rfl⟩, ?_⟩
  · intro exec s args
    unfold chatToolExecutor
    rw [hcmd]
    simp [hdes, hans]
  · intro exec tcs
    induction tcs with
    | nil => intro st; simp [execCalls]
    | cons tc rest ih =>
      intro st
      rw [execCalls, ih]
      simp
      omega

/-- Witness for C3: declining the confirmation for the destructive
`delproject` tool leaves the store unchanged and yields the cancellation
result, even under an executor that would mutate the store. -/
theorem destructive_decline_witness :
    chatToolExecutor (fun _ cmdStr => (emptyStore, cmdStr)) "n" demoStoreC1
      "delproject" [("project_id", "abc")] = (demoStoreC1, cancelledResult) := by
  exact (destructive_decline "delproject"
      { name := "/delproject", destructive := true, params := ["project_id"] } "n"
      (by decide) rfl (by decide)).1 _ demoStoreC1 _

/-- C4 counterexample: a scripted backend that returns a tool call in
every one of 50 consecutive replies leaves the loop still requesting —
no cap error has been surfaced and the turn has not terminated, where
the claim demands a surfaced fatal error once a maximum iteration count
is exceeded. -/
theorem chatWithTools_cap_counterexample :
    (ChatWithTools nopExec emptyStore "hi" []
        (List.replicate 50 alwaysToolReply)).isMoreRequests = true := by
  decide

/-- C4 amended: the `ChatWithTools` loop imposes no iteration cap — it
terminates only when an exchange fails, a reply has no choices, or a
reply's first choice has no tool calls; against a backend whose every
scripted reply requests a tool call, the loop consumes the whole script
and is still awaiting another backend response, for a script of any
length. -/
theorem chatLoop_no_iteration_cap
    (executor : StoreData → String → List (String × String) → StoreData × String)
    (script : List BackendReply) (st : LoopSt)
    (hall : ∀ r ∈ script, replyRequestsTools r = true) :
    ∃ st2, chatLoop executor script st = ChatOutcome.moreRequests st2 := by
  induction script generalizing st with
  | nil => exact ⟨st, by simp [chatLoop]⟩
  | cons r rest ih =>
    have hr := hall r (List.mem_cons_self r rest)
    rcases r with ⟨choices, usage⟩ | msg
    · rcases choices with _ | ⟨c, cs⟩
      · simp [replyRequestsTools] at hr
      · have hne : c.toolCalls.isEmpty = false := by
          simpa [replyRequestsTools] using hr
        simp only [chatLoop, hne, Bool.false_eq_true, if_false]
        exact ih _ (fun q hq => hall q (List.mem_cons_of_mem _ hq))
    · simp [replyRequestsTools] at hr

/-- Witness for the amended C4 theorem: a two-reply all-tool-calls
script ends with the loop still requesting. -/
theorem chatLoop_no_iteration_cap_witness :
    ∃ st2, chatLoop nopExec [alwaysToolReply, alwaysToolReply] { store := emptyStore } =
      ChatOutcome.moreRequests st2 := by
  exact chatLoop_no_iteration_cap nopExec [alwaysToolReply, alwaysToolReply]
    { store := emptyStore } (by decide)

/-- C7: a turn whose first backend reply carries no text and no tool
calls — hence a turn in which no tool was ever executed, since the loop
finalizes at the first reply without tool calls — and whose reported
input tokens are zero, fails with the distinguishable empty-response
error rather than succeeding with empty text. -/
theorem chatWithTools_empty_reply_fails
    (executor : StoreData → String → List (String × String) → StoreData × String)
    (s : StoreData) (message : String) (history : List Message)
    (rest : List BackendReply) (choice : ChoiceR) (more : List ChoiceR) (usage : UsageR)
    (hmsg : (goTrimSpace message == "") = false)
    (hcontent : choice.content = "")
    (htools : choice.toolCalls = [])
    (htok : usage.promptTokens = 0) :
    ChatWithTools executor s message history
        (BackendReply.ok (choice :: more) usage :: rest) =
      ChatOutcome.failure msgEmptyResponse
        (history ++ [{ role := "user", content := message }]) s := by
  unfold ChatWithTools
  rw [hmsg]
  simp only [Bool.false_eq_true, if_false]
  simp [chatLoop, htools, hcontent, htok, accumulate, goTrimSpace]

/-- Witness for C7: one empty scripted reply with zero reported usage
makes the turn fail with the empty-response error. -/
theorem chatWithTools_empty_reply_fails_witness :
    ChatWithTools nopExec emptyStore "hello" [] [BackendReply.ok [{}] {}] =
      ChatOutcome.failure msgEmptyResponse
        [{ role := "user", content := "hello" }] emptyStore := by
  have h := chatWithTools_empty_reply_fails nopExec emptyStore "hello" [] []
    {} [] {} (by decide) rfl rfl rfl
  simpa using h

/-- Folding the write action logs each text with the current stdout
destination, which itself never changes. -/
theorem foldl_writeOut (l : List String) (w : OutWorld) :
    l.foldl writeOut w =
      { w with writes := w.writes ++ l.map (fun t => (w.stdout, t)) } := by
  induction l generalizing w with
  | nil => simp
  | cons t rest ih =>
    rw [List.foldl_cons, ih]
    simp [writeOut]

/-- C9: `captureOutput fn` returns exactly the text `fn` wrote to the
process stdout, surrounding whitespace trimmed; on every exit path —
normal return or panic — the global stdout handle is restored to its
prior value; and the capture itself leaves everything else unchanged:
text already written anywhere is kept, nothing new reaches the real
standard output, and every new write is tagged with the fresh pipe.  The
freshness hypothesis says earlier writes never used a pipe index that
was still unallocated. -/
theorem captureOutput_spec (fn : FnBehavior) (w : OutWorld)
    (hfresh : ∀ e ∈ w.writes, ∀ k, e.1 = OutDest.pipe k → k < w.nextPipe) :
    (fn.panics = false →
      (captureOutput fn true w).2 = some (goTrimSpace (String.join fn.writes))) ∧
    (captureOutput fn true w).1.stdout = w.stdout ∧
    writtenTo (captureOutput fn true w).1 OutDest.standard =
      writtenTo w OutDest.standard ∧
    (∀ e ∈ (captureOutput fn true w).1.writes,
      e ∈ w.writes ∨ e.1 = OutDest.pipe w.nextPipe) := by
  have hrun : runBody fn { w with stdout := OutDest.pipe w.nextPipe, nextPipe := w.nextPipe + 1 } = { w with stdout := OutDest.pipe w.nextPipe, nextPipe := w.nextPipe + 1, writes := w.writes ++ fn.writes.map (fun t => (OutDest.pipe w.nextPipe, t)) } := by
    unfold runBody
    rw [foldl_writeOut]
  have hold : (w.writes.filter (fun e => e.1 == OutDest.pipe w.nextPipe)) = [] := by
    rw [List.filter_eq_nil_iff]
    intro e he
    simp only [beq_iff_eq]
    intro hd
    exact absurd (hfresh e he w.nextPipe hd) (by omega)
  have hnewp : (fn.writes.map (fun t => (OutDest.pipe w.nextPipe, t))).filter
      (fun e => e.1 == OutDest.pipe w.nextPipe) =
      fn.writes.map (fun t => (OutDest.pipe w.nextPipe, t)) := by
    rw [List.filter_eq_self]
    intro e he
    obtain ⟨t, _, rfl⟩ := List.mem_map.mp he
    simp
  have hnewstd : (fn.writes.map (fun t => (OutDest.pipe w.nextPipe, t))).filter
      (fun e => e.1 == OutDest.standard) = [] := by
    rw [List.filter_eq_nil_iff]
    intro e he
    obtain ⟨t, _, rfl⟩ := List.mem_map.mp he
    simp
  refine ⟨?_, ?_, ?_, ?_⟩
  · intro hp
    unfold captureOutput
    simp only [Bool.not_true, Bool.false_eq_true, if_false, hp, hrun]
    unfold writtenTo
    simp only [hrun, List.filter_append, hold, List.nil_append, hnewp]
    simp [Function.comp]
  · unfold captureOutput
    by_cases hp : fn.panics <;> simp [hp, hrun]
  · unfold captureOutput
    by_cases hp : fn.panics <;>
      simp only [Bool.not_true, Bool.false_eq_true, if_false, hp, if_true, hrun] <;>
      · unfold writtenTo
        simp [List.filter_append, hnewstd]
  · intro e he
    unfold captureOutput at he
    by_cases hp : fn.panics <;>
      simp only [Bool.not_true, Bool.false_eq_true, if_false, hp, if_true, hrun] at he <;>
      · rcases List.mem_append.mp he with h1 | h1
        · exact Or.inl h1
        · obtain ⟨t, _, rfl⟩ := List.mem_map.mp h1
          exact Or.inr rfl

/-- Witness for C9: a body that writes two chunks and panics still gets
the prior stdout restored; without the panic the captured text is the
trimmed concatenation. -/
theorem captureOutput_spec_witness :
    (captureOutput { writes := ["hello ", "world\n"] } true {}).2 =
      some "hello world" ∧
    (captureOutput { writes := ["boom"], panics := true } true {}).1.stdout =
      OutDest.standard := by
  constructor
  · have h := (captureOutput_spec { writes := ["hello ", "world\n"] } {}
      (by intro e he k hd; cases he)).1 rfl
    simpa using h
  · exact (captureOutput_spec { writes := ["boom"], panics := true } {}
      (by intro e he k hd; cases he)).2.1

end Twooms

